import Mathlib

/-!
Shallow embedding of the planetary-motion simulation core (`main.py`):
the `Planet` record, the pairwise gravitational force (`Planet.attract`),
the inelastic merge (`Planet.collide`), the per-body step
(`Planet.update_position`) and the per-frame pass over the mutating body
list, together with theorems settling the specification claims.

Python floats are modelled as real numbers; Python object identity is
modelled by a numeric `id` field (the source never compares planets by
value, and `Planet` defines no `__eq__`, so `==` is identity there).
-/

/-- Gravitational constant, `G = 6.67430e-11` (main.py line 27). -/
noncomputable def G : ℝ := 66743 / 10 ^ 15

/-- Length scale, `SCALE = 100 / 1.496e11` (main.py line 28). -/
noncomputable def SCALE : ℝ := 100 / (1496 * 10 ^ 8)

/-- Fixed timestep, `TIMESTEP = 3600 * 24` seconds (main.py line 29). -/
noncomputable def TIMESTEP : ℝ := 3600 * 24

/-- Maximum number of points kept in a body's orbit trail (main.py line 36). -/
def trail_limit : ℕ := 200

/-- The state of one simulated body (class `Planet`, main.py lines 51-63).
`id` models Python object identity; `color` is opaque rendering data. -/
structure Planet where
  id : ℕ
  x : ℝ
  y : ℝ
  radius : ℝ
  physical_radius : ℝ
  color : ℕ
  mass : ℝ
  name : String
  type_id : ℕ
  orbit : List (ℝ × ℝ)
  x_vel : ℝ
  y_vel : ℝ

/-- `Planet.__init__` (main.py lines 52-63): sets
`physical_radius = radius / SCALE`, empty trail, zero velocity. -/
noncomputable def mkPlanet (id : ℕ) (x y radius : ℝ) (color : ℕ) (mass : ℝ)
    (name : String) (type_id : ℕ) : Planet :=
  { id := id, x := x, y := y, radius := radius,
    physical_radius := radius / SCALE, color := color, mass := mass,
    name := name, type_id := type_id, orbit := [], x_vel := 0, y_vel := 0 }

/-- Euclidean distance `math.sqrt(dx ** 2 + dy ** 2)` between the positions
of two bodies (main.py lines 87-89 and 127-129). -/
noncomputable def distance (a b : Planet) : ℝ :=
  Real.sqrt ((b.x - a.x) ^ 2 + (b.y - a.y) ^ 2)

/-- `math.atan2(y, x)`: the argument of the complex number `x + y*i`. -/
noncomputable def atan2 (y x : ℝ) : ℝ := Complex.arg ⟨x, y⟩

open Classical in
/-- `Planet.attract` (main.py lines 86-97): force that `self` experiences
due to `other`; `(0, 0)` at coincident positions. -/
noncomputable def Planet.attract (self other : Planet) : ℝ × ℝ :=
  if distance self other = 0 then (0, 0)
  else
    let force := G * self.mass * other.mass / distance self other ^ 2
    let theta := atan2 (other.y - self.y) (other.x - self.x)
    (Real.cos theta * force, Real.sin theta * force)

open Classical in
/-- `Planet.collide` (main.py lines 99-118): perfectly inelastic merge of
`self` and `other` into a fresh body (`newId` models the fresh Python
object identity). -/
noncomputable def Planet.collide (self other : Planet) (newId : ℕ) : Planet :=
  let total_mass := self.mass + other.mass
  let x_vel := (self.x_vel * self.mass + other.x_vel * other.mass) / total_mass
  let y_vel := (self.y_vel * self.mass + other.y_vel * other.mass) / total_mass
  let new_radius := ((self.physical_radius ^ 3 + other.physical_radius ^ 3) ^ ((1 : ℝ) / 3)) * SCALE
  let new_type := if other.mass < self.mass then self.type_id else other.type_id
  let new_name := self.name ++ "+" ++ other.name
  let new_planet := mkPlanet newId ((self.x + other.x) / 2) ((self.y + other.y) / 2)
    new_radius self.color total_mass new_name new_type
  { new_planet with x_vel := x_vel, y_vel := y_vel }

/-- SCALE is a nonzero constant. -/
lemma SCALE_ne_zero : SCALE ≠ 0 := by norm_num [SCALE]

/-- C1: for every merge of two bodies A and B produced by `Planet.collide`,
the merged body's mass equals `A.mass + B.mass` exactly. -/
theorem collide_mass_conservation (a b : Planet) (newId : ℕ) :
    (a.collide b newId).mass = a.mass + b.mass := rfl

/-- C2: for positive masses, the merged velocity is the mass-weighted
average of the input velocities component-wise, and total momentum
`merged.mass * merged.velocity = mA*vA + mB*vB` is conserved. -/
theorem collide_momentum_conservation (a b : Planet) (newId : ℕ)
    (ha : 0 < a.mass) (hb : 0 < b.mass) :
    (a.collide b newId).x_vel = (a.mass * a.x_vel + b.mass * b.x_vel) / (a.mass + b.mass) ∧
    (a.collide b newId).y_vel = (a.mass * a.y_vel + b.mass * b.y_vel) / (a.mass + b.mass) ∧
    (a.collide b newId).mass * (a.collide b newId).x_vel
      = a.mass * a.x_vel + b.mass * b.x_vel ∧
    (a.collide b newId).mass * (a.collide b newId).y_vel
      = a.mass * a.y_vel + b.mass * b.y_vel := by
  have hm : a.mass + b.mass ≠ 0 := by positivity
  refine ⟨by rw [Planet.collide]; ring_nf, by rw [Planet.collide]; ring_nf, ?_, ?_⟩ <;>
    · show (a.mass + b.mass) * (_ / (a.mass + b.mass)) = _
      field_simp
      ring

/-- Concrete body used in several witnesses: unit mass at the origin. -/
noncomputable def wpO : Planet :=
  { id := 0, x := 0, y := 0, radius := 1, physical_radius := 1, color := 0,
    mass := 1, name := "O", type_id := 1, orbit := [], x_vel := 0, y_vel := 0 }

/-- Concrete body used in several witnesses: unit mass at `(3, 0)`. -/
noncomputable def wpP : Planet :=
  { id := 1, x := 3, y := 0, radius := 1, physical_radius := 1, color := 0,
    mass := 1, name := "P", type_id := 2, orbit := [], x_vel := 0, y_vel := 0 }

/-- Witness for C2 at two concrete unit-mass bodies. -/
theorem collide_momentum_conservation_witness :
    0 < wpO.mass ∧ 0 < wpP.mass ∧
    ((wpO.collide wpP 7).x_vel
        = (wpO.mass * wpO.x_vel + wpP.mass * wpP.x_vel) / (wpO.mass + wpP.mass) ∧
      (wpO.collide wpP 7).y_vel
        = (wpO.mass * wpO.y_vel + wpP.mass * wpP.y_vel) / (wpO.mass + wpP.mass) ∧
      (wpO.collide wpP 7).mass * (wpO.collide wpP 7).x_vel
        = wpO.mass * wpO.x_vel + wpP.mass * wpP.x_vel ∧
      (wpO.collide wpP 7).mass * (wpO.collide wpP 7).y_vel
        = wpO.mass * wpO.y_vel + wpP.mass * wpP.y_vel) :=
  ⟨by norm_num [wpO], by norm_num [wpP],
    collide_momentum_conservation wpO wpP 7 (by norm_num [wpO]) (by norm_num [wpP])⟩

/-- C8: merge sizing and placement: the merged body's physical radius is
the cube root of the summed cubed physical radii, its render radius is
that value times SCALE, and its position is the unweighted midpoint. -/
theorem collide_radius_position (a b : Planet) (newId : ℕ) :
    (a.collide b newId).physical_radius
      = (a.physical_radius ^ 3 + b.physical_radius ^ 3) ^ ((1 : ℝ) / 3) ∧
    (a.collide b newId).radius
      = ((a.physical_radius ^ 3 + b.physical_radius ^ 3) ^ ((1 : ℝ) / 3)) * SCALE ∧
    (a.collide b newId).x = (a.x + b.x) / 2 ∧
    (a.collide b newId).y = (a.y + b.y) / 2 := by
  refine ⟨?_, rfl, rfl, rfl⟩
  show ((a.physical_radius ^ 3 + b.physical_radius ^ 3) ^ ((1 : ℝ) / 3)) * SCALE / SCALE = _
  rw [mul_div_cancel_right₀ _ SCALE_ne_zero]

/-- Counterexample to C6's tie policy: two equal-mass bodies with distinct
categories merge to the RIGHT operand's category, not the left's. -/
theorem collide_tie_counterexample :
    wpO.mass = wpP.mass ∧ wpO.type_id ≠ wpP.type_id ∧
    (wpO.collide wpP 7).type_id = wpP.type_id ∧
    (wpO.collide wpP 7).type_id ≠ wpO.type_id := by
  have h : (wpO.collide wpP 7).type_id = wpP.type_id := by
    show (if wpP.mass < wpO.mass then wpO.type_id else wpP.type_id) = wpP.type_id
    rw [if_neg (by norm_num [wpO, wpP])]
  exact ⟨by norm_num [wpO, wpP], by norm_num [wpO, wpP], h,
    by rw [h]; norm_num [wpO, wpP]⟩

/-- C6 (amended): the merged body's category is that of the input with
strictly greater mass, and when the masses are equal the RIGHT operand's
category is used; the merged name joins both names with `+`. -/
theorem collide_category_name (a b : Planet) (newId : ℕ) :
    (a.collide b newId).type_id = (if b.mass < a.mass then a.type_id else b.type_id) ∧
    (a.collide b newId).name = a.name ++ "+" ++ b.name := ⟨rfl, rfl⟩

/-- Distance is symmetric in its two bodies. -/
lemma distance_comm (a b : Planet) : distance a b = distance b a := by
  unfold distance
  congr 1
  ring

/-- Distance vanishes exactly at coincident positions. -/
lemma distance_eq_zero_iff (a b : Planet) :
    distance a b = 0 ↔ b.x = a.x ∧ b.y = a.y := by
  unfold distance
  rw [Real.sqrt_eq_zero (by positivity)]
  constructor
  · intro h
    have hx2 : (b.x - a.x) ^ 2 = 0 :=
      le_antisymm (by nlinarith [sq_nonneg (b.y - a.y)]) (sq_nonneg _)
    have hy2 : (b.y - a.y) ^ 2 = 0 :=
      le_antisymm (by nlinarith [sq_nonneg (b.x - a.x)]) (sq_nonneg _)
    exact ⟨sub_eq_zero.mp (sq_eq_zero_iff.mp hx2), sub_eq_zero.mp (sq_eq_zero_iff.mp hy2)⟩
  · rintro ⟨h1, h2⟩
    rw [h1, h2]
    simp

/-- Closed form of the non-degenerate branch of `attract`: the force on
`a` is the vector from `a` to `b`, normalised, scaled by `G mA mB / d²`. -/
lemma attract_eq (a b : Planet) (h : distance a b ≠ 0) :
    a.attract b = ((b.x - a.x) / distance a b * (G * a.mass * b.mass / distance a b ^ 2),
                   (b.y - a.y) / distance a b * (G * a.mass * b.mass / distance a b ^ 2)) := by
  have hz : (⟨b.x - a.x, b.y - a.y⟩ : ℂ) ≠ 0 := by
    intro hc
    apply h
    have h1 : b.x - a.x = 0 := congrArg Complex.re hc
    have h2 : b.y - a.y = 0 := congrArg Complex.im hc
    unfold distance
    rw [h1, h2]
    simp
  have habs : Complex.abs ⟨b.x - a.x, b.y - a.y⟩ = distance a b := by
    rw [Complex.abs_apply, Complex.normSq_mk]
    unfold distance
    congr 1
    ring
  unfold Planet.attract
  rw [if_neg h]
  show (Real.cos (atan2 (b.y - a.y) (b.x - a.x)) * _,
        Real.sin (atan2 (b.y - a.y) (b.x - a.x)) * _) = _
  unfold atan2
  rw [Complex.cos_arg hz, Complex.sin_arg, habs]

/-- C3: for any two bodies with nonnegative masses, `attract` returns the
zero vector at coincident positions, and otherwise a force directed along
the vector from A's position to B's position with magnitude
`G * mA * mB / d²`. -/
theorem attract_spec (a b : Planet) (ha : 0 ≤ a.mass) (hb : 0 ≤ b.mass) :
    (distance a b = 0 → a.attract b = (0, 0)) ∧
    (distance a b ≠ 0 →
      a.attract b = ((b.x - a.x) / distance a b * (G * a.mass * b.mass / distance a b ^ 2),
                     (b.y - a.y) / distance a b * (G * a.mass * b.mass / distance a b ^ 2)) ∧
      Real.sqrt ((a.attract b).1 ^ 2 + (a.attract b).2 ^ 2)
        = G * a.mass * b.mass / distance a b ^ 2) := by
  constructor
  · intro h
    unfold Planet.attract
    rw [if_pos h]
  · intro h
    refine ⟨attract_eq a b h, ?_⟩
    rw [attract_eq a b h]
    have hd2 : distance a b ^ 2 = (b.x - a.x) ^ 2 + (b.y - a.y) ^ 2 := by
      unfold distance
      rw [Real.sq_sqrt (by positivity)]
    have hG : (0 : ℝ) ≤ G := by norm_num [G]
    have hF : 0 ≤ G * a.mass * b.mass / distance a b ^ 2 :=
      div_nonneg (mul_nonneg (mul_nonneg hG ha) hb) (sq_nonneg _)
    have key : ((b.x - a.x) / distance a b * (G * a.mass * b.mass / distance a b ^ 2)) ^ 2 +
        ((b.y - a.y) / distance a b * (G * a.mass * b.mass / distance a b ^ 2)) ^ 2
        = (G * a.mass * b.mass / distance a b ^ 2) ^ 2 := by
      have hd2' : distance a b ^ 2 ≠ 0 := pow_ne_zero 2 h
      calc ((b.x - a.x) / distance a b * (G * a.mass * b.mass / distance a b ^ 2)) ^ 2 +
          ((b.y - a.y) / distance a b * (G * a.mass * b.mass / distance a b ^ 2)) ^ 2
          = ((b.x - a.x) ^ 2 + (b.y - a.y) ^ 2) / distance a b ^ 2 *
            (G * a.mass * b.mass / distance a b ^ 2) ^ 2 := by ring
        _ = distance a b ^ 2 / distance a b ^ 2 *
            (G * a.mass * b.mass / distance a b ^ 2) ^ 2 := by rw [← hd2]
        _ = (G * a.mass * b.mass / distance a b ^ 2) ^ 2 := by
            rw [div_self hd2', one_mul]
    rw [key, Real.sqrt_sq hF]

/-- Witness for C3 at two concrete unit-mass bodies three meters apart. -/
theorem attract_spec_witness :
    0 ≤ wpO.mass ∧ 0 ≤ wpP.mass ∧
    ((distance wpO wpP = 0 → wpO.attract wpP = (0, 0)) ∧
     (distance wpO wpP ≠ 0 →
       wpO.attract wpP
         = ((wpP.x - wpO.x) / distance wpO wpP *
              (G * wpO.mass * wpP.mass / distance wpO wpP ^ 2),
            (wpP.y - wpO.y) / distance wpO wpP *
              (G * wpO.mass * wpP.mass / distance wpO wpP ^ 2)) ∧
       Real.sqrt ((wpO.attract wpP).1 ^ 2 + (wpO.attract wpP).2 ^ 2)
         = G * wpO.mass * wpP.mass / distance wpO wpP ^ 2)) :=
  ⟨by norm_num [wpO], by norm_num [wpP],
    attract_spec wpO wpP (by norm_num [wpO]) (by norm_num [wpP])⟩

/-- C9: for bodies at distinct positions the two mutual forces cancel
component-wise and have equal magnitudes. -/
theorem attract_antisymm (a b : Planet) (h : (a.x, a.y) ≠ (b.x, b.y)) :
    (a.attract b).1 + (b.attract a).1 = 0 ∧
    (a.attract b).2 + (b.attract a).2 = 0 ∧
    Real.sqrt ((a.attract b).1 ^ 2 + (a.attract b).2 ^ 2)
      = Real.sqrt ((b.attract a).1 ^ 2 + (b.attract a).2 ^ 2) := by
  have hd : distance a b ≠ 0 := by
    intro h0
    obtain ⟨h1, h2⟩ := (distance_eq_zero_iff a b).mp h0
    exact h (by rw [h1, h2])
  have hd' : distance b a ≠ 0 := by
    rw [← distance_comm]
    exact hd
  have hcomm : distance b a = distance a b := (distance_comm a b).symm
  rw [attract_eq a b hd, attract_eq b a hd', hcomm]
  refine ⟨by ring, by ring, ?_⟩
  congr 1
  ring

/-- Witness for C9 at two concrete bodies at distinct positions. -/
theorem attract_antisymm_witness :
    (wpO.x, wpO.y) ≠ (wpP.x, wpP.y) ∧
    ((wpO.attract wpP).1 + (wpP.attract wpO).1 = 0 ∧
     (wpO.attract wpP).2 + (wpP.attract wpO).2 = 0 ∧
     Real.sqrt ((wpO.attract wpP).1 ^ 2 + (wpO.attract wpP).2 ^ 2)
       = Real.sqrt ((wpP.attract wpO).1 ^ 2 + (wpP.attract wpO).2 ^ 2)) :=
  ⟨by simp [wpO, wpP, Prod.ext_iff], attract_antisymm wpO wpP (by simp [wpO, wpP, Prod.ext_iff])⟩

/-- Horizontal special case of `attract`: the other body lies to the
right at the same height, so the force is `(+F, 0)`. -/
lemma attract_right (a b : Planet) (hy : b.y = a.y) (hx : a.x < b.x) :
    a.attract b = (G * a.mass * b.mass / (b.x - a.x) ^ 2, 0) := by
  have hd : distance a b = b.x - a.x := by
    unfold distance
    rw [hy, sub_self]
    simp [Real.sqrt_sq_eq_abs, abs_of_pos (sub_pos.mpr hx)]
  have hdne : distance a b ≠ 0 := by
    rw [hd]
    exact ne_of_gt (sub_pos.mpr hx)
  rw [attract_eq a b hdne, hd, hy, sub_self]
  have hne : b.x - a.x ≠ 0 := ne_of_gt (sub_pos.mpr hx)
  rw [div_self hne, one_mul, zero_div, zero_mul]

/-- Horizontal special case of `attract`: the other body lies to the
left at the same height, so the force is `(-F, 0)`. -/
lemma attract_left (a b : Planet) (hy : b.y = a.y) (hx : b.x < a.x) :
    a.attract b = (-(G * a.mass * b.mass / (b.x - a.x) ^ 2), 0) := by
  have hd : distance a b = a.x - b.x := by
    unfold distance
    rw [hy, sub_self]
    rw [show ((0:ℝ) ^ 2 = 0) from by norm_num, add_zero, Real.sqrt_sq_eq_abs,
      abs_of_neg (sub_neg.mpr hx), neg_sub]
  have hdne : distance a b ≠ 0 := by
    rw [hd]
    exact ne_of_gt (sub_pos.mpr hx)
  rw [attract_eq a b hdne, hd, hy, sub_self]
  have hne : a.x - b.x ≠ 0 := ne_of_gt (sub_pos.mpr hx)
  have c1 : (b.x - a.x) / (a.x - b.x) * (G * a.mass * b.mass / (a.x - b.x) ^ 2)
      = -(G * a.mass * b.mass / (b.x - a.x) ^ 2) := by
    rw [show b.x - a.x = -(a.x - b.x) from by ring]
    rw [neg_div, div_self hne]
    ring_nf
  rw [c1, zero_div, zero_mul]

open Classical in
/-- The inner loop of `Planet.update_position` (main.py lines 122-140):
walk the (snapshot of the) body list in order, skipping `self`; on the
first body within collision range return it (`Sum.inr`), otherwise
accumulate the attraction forces and return the totals (`Sum.inl`). -/
noncomputable def Planet.scanBodies (self : Planet) :
    List Planet → ℝ → ℝ → (ℝ × ℝ) ⊕ Planet
  | [], total_fx, total_fy => Sum.inl (total_fx, total_fy)
  | p :: rest, total_fx, total_fy =>
    if p.id = self.id then self.scanBodies rest total_fx total_fy
    else if distance self p ≤ self.physical_radius + p.physical_radius then Sum.inr p
    else self.scanBodies rest (total_fx + (self.attract p).1) (total_fy + (self.attract p).2)

/-- Trail update (main.py lines 147-150): append the new position, then
drop the oldest point if the bound is exceeded. -/
def trailPush (orbit : List (ℝ × ℝ)) (pt : ℝ × ℝ) : List (ℝ × ℝ) :=
  if trail_limit < (orbit ++ [pt]).length then (orbit ++ [pt]).drop 1 else orbit ++ [pt]

/-- Integration step of `Planet.update_position` (main.py lines 142-150):
semi-implicit Euler update of velocity then position, plus trail append. -/
noncomputable def Planet.integrate (self : Planet) (total_fx total_fy : ℝ) : Planet :=
  let x_vel := self.x_vel + total_fx / self.mass * TIMESTEP
  let y_vel := self.y_vel + total_fy / self.mass * TIMESTEP
  let x := self.x + x_vel * TIMESTEP
  let y := self.y + y_vel * TIMESTEP
  { self with
    x_vel := x_vel
    y_vel := y_vel
    x := x
    y := y
    orbit := trailPush self.orbit (x, y) }

/-- `Planet.update_position` (main.py lines 120-150): scan the body list;
on the first detected overlap remove both bodies and append their merge
(early return); otherwise integrate `self` in place. -/
noncomputable def Planet.update_position (self : Planet) (planets : List Planet)
    (newId : ℕ) : List Planet :=
  match self.scanBodies planets 0 0 with
  | Sum.inr p =>
      ((planets.eraseP (fun q => q.id == self.id)).eraseP (fun q => q.id == p.id))
        ++ [self.collide p newId]
  | Sum.inl (total_fx, total_fy) =>
      planets.map (fun q => if q.id = self.id then self.integrate total_fx total_fy else q)

/-- One pass of the main loop's update phase (main.py lines 315-317),
modelling Python's index-based `for` over the list that
`update_position` mutates: position `i` advances by one each iteration
while the list may shrink by one on a merge.  `fuel` bounds the number of
iterations (the caller passes the initial length, which suffices because
the list never grows); `fresh` supplies identities for merged bodies. -/
noncomputable def frameAux : ℕ → List Planet → ℕ → Bool → Option ℕ → ℕ → List Planet
  | 0, ps, _, _, _, _ => ps
  | fuel + 1, ps, i, paused, dragging, fresh =>
    if h : i < ps.length then
      frameAux fuel
        (if paused = false ∨ dragging = some (ps[i]).id
          then (ps[i]).update_position ps fresh else ps)
        (i + 1) paused dragging (fresh + 1)
    else ps

/-- One frame of the update phase: `for planet in planets: if not paused
or planet == dragging_planet: planet.update_position(planets)`
(main.py lines 315-317). -/
noncomputable def frame (planets : List Planet) (paused : Bool) (dragging : Option ℕ)
    (fresh : ℕ) : List Planet :=
  frameAux planets.length planets 0 paused dragging fresh

/-- One unpaused step of the Step Engine: a full pass of
`update_position` over all bodies. -/
noncomputable def step (planets : List Planet) (fresh : ℕ) : List Planet :=
  frame planets false none fresh

/-- `n` consecutive unpaused steps. -/
noncomputable def stepN : ℕ → List Planet → ℕ → List Planet
  | 0, ps, _ => ps
  | n + 1, ps, fresh => stepN n (step ps fresh) (fresh + ps.length + 1)

/-- A paused frame with no dragged body leaves the collection unchanged:
no body is scanned, integrated, or trail-updated. -/
lemma frameAux_true_none : ∀ (fuel : ℕ) (ps : List Planet) (i fresh : ℕ),
    frameAux fuel ps i true none fresh = ps := by
  intro fuel
  induction fuel with
  | zero => intro ps i fresh; rfl
  | succ n ih =>
    intro ps i fresh
    unfold frameAux
    split
    · rw [if_neg (by simp)]
      exact ih ps (i + 1) (fresh + 1)
    · rfl

/-- Dragged body used in the C5 counterexample: unit mass, moving right. -/
noncomputable def wpD : Planet :=
  { id := 0, x := 0, y := 0, radius := 1, physical_radius := 1, color := 0,
    mass := 1, name := "D", type_id := 2, orbit := [], x_vel := 1, y_vel := 0 }

/-- Counterexample to C5: in a frame whose pause flag is set because a
body is being dragged, that dragged body IS integrated (its position
moves and its trail grows), contrary to the claim that it is excluded. -/
theorem paused_drag_counterexample :
    ∃ q, frame [wpD] true (some wpD.id) 9 = [q] ∧ q.x ≠ wpD.x ∧ q.orbit ≠ wpD.orbit := by
  have hscan : wpD.scanBodies [wpD] 0 0 = Sum.inl (0, 0) := by
    unfold Planet.scanBodies
    rw [if_pos rfl]
    rfl
  have hup : wpD.update_position [wpD] 9 = [wpD.integrate 0 0] := by
    unfold Planet.update_position
    rw [hscan]
    simp
  refine ⟨wpD.integrate 0 0, ?_, ?_, ?_⟩
  · show frameAux 1 [wpD] 0 true (some wpD.id) 9 = _
    unfold frameAux
    rw [dif_pos (by norm_num)]
    simp only [List.getElem_cons_zero]
    rw [if_pos (by simp), hup]
    rfl
  · show wpD.x + (wpD.x_vel + 0 / wpD.mass * TIMESTEP) * TIMESTEP ≠ wpD.x
    norm_num [wpD, TIMESTEP]
  · show trailPush wpD.orbit _ ≠ wpD.orbit
    simp [trailPush, wpD, trail_limit]


/-- Unfolding of `update_position` in the no-collision case. -/
lemma update_position_inl (self : Planet) (ps : List Planet) (newId : ℕ)
    (total_fx total_fy : ℝ)
    (h : self.scanBodies ps 0 0 = Sum.inl (total_fx, total_fy)) :
    self.update_position ps newId
      = ps.map (fun q => if q.id = self.id
          then self.integrate total_fx total_fy else q) := by
  unfold Planet.update_position
  rw [h]

/-- Unfolding of `update_position` in the collision case. -/
lemma update_position_inr (self : Planet) (ps : List Planet) (newId : ℕ) (q : Planet)
    (h : self.scanBodies ps 0 0 = Sum.inr q) :
    self.update_position ps newId
      = ((ps.eraseP (fun r => r.id == self.id)).eraseP (fun r => r.id == q.id))
        ++ [self.collide q newId] := by
  unfold Planet.update_position
  rw [h]

/-- The trail invariant of C7: bounded length, and the last trail point
(when one exists) is the body's current position. -/
def goodTrail (p : Planet) : Prop :=
  p.orbit.length ≤ trail_limit ∧ (p.orbit = [] ∨ p.orbit.getLast? = some (p.x, p.y))

/-- The pushed point is always the last point of the updated trail. -/
lemma trailPush_getLast (o : List (ℝ × ℝ)) (pt : ℝ × ℝ) :
    (trailPush o pt).getLast? = some pt := by
  unfold trailPush
  split
  · next hc =>
    cases o with
    | nil => simp [trail_limit] at hc
    | cons a t =>
      show (List.drop 1 ((a :: t) ++ [pt])).getLast? = some pt
      simp
  · exact List.getLast?_concat o

/-- Pushing onto a trail within the bound keeps it within the bound. -/
lemma trailPush_length (o : List (ℝ × ℝ)) (pt : ℝ × ℝ) (h : o.length ≤ trail_limit) :
    (trailPush o pt).length ≤ trail_limit := by
  unfold trailPush
  split
  · next hc =>
    simp only [List.length_drop, List.length_append, List.length_singleton]
    omega
  · next hc =>
    simp only [not_lt] at hc
    exact hc

/-- A freshly merged body has an empty (hence good) trail. -/
lemma goodTrail_collide (a b : Planet) (newId : ℕ) : goodTrail (a.collide b newId) :=
  ⟨Nat.zero_le _, Or.inl rfl⟩

/-- Integration preserves the trail invariant: the appended point is the
new position and the length bound is maintained. -/
lemma goodTrail_integrate (p : Planet) (fx fy : ℝ) (hp : p.orbit.length ≤ trail_limit) :
    goodTrail (p.integrate fx fy) := by
  refine ⟨trailPush_length _ _ hp, Or.inr ?_⟩
  exact trailPush_getLast _ _

/-- A body update preserves the trail invariant for every body in the
resulting collection. -/
lemma update_position_good (self : Planet) (ps : List Planet) (newId : ℕ)
    (hs : goodTrail self) (h : ∀ p ∈ ps, goodTrail p) :
    ∀ p ∈ self.update_position ps newId, goodTrail p := by
  intro p hp
  cases hscan : self.scanBodies ps 0 0 with
  | inl r =>
    obtain ⟨fx, fy⟩ := r
    rw [update_position_inl self ps newId fx fy hscan] at hp
    obtain ⟨q, hq, hqe⟩ := List.mem_map.mp hp
    by_cases hid : q.id = self.id
    · rw [if_pos hid] at hqe
      rw [← hqe]
      exact goodTrail_integrate self fx fy hs.1
    · rw [if_neg hid] at hqe
      rw [← hqe]
      exact h q hq
  | inr q =>
    rw [update_position_inr self ps newId q hscan] at hp
    rcases List.mem_append.mp hp with h1 | h2
    · exact h p (List.mem_of_mem_eraseP (List.mem_of_mem_eraseP h1))
    · rw [List.mem_singleton.mp h2]
      exact goodTrail_collide _ _ _

/-- A whole frame pass preserves the trail invariant. -/
lemma frameAux_good : ∀ (fuel : ℕ) (ps : List Planet) (i : ℕ) (paused : Bool)
    (dragging : Option ℕ) (fresh : ℕ), (∀ p ∈ ps, goodTrail p) →
    ∀ p ∈ frameAux fuel ps i paused dragging fresh, goodTrail p := by
  intro fuel
  induction fuel with
  | zero => exact fun ps i paused dragging fresh h => h
  | succ n ih =>
    intro ps i paused dragging fresh h
    unfold frameAux
    split
    · next hlen =>
      apply ih
      split
      · exact update_position_good _ ps _ (h _ (List.getElem_mem hlen)) h
      · exact h
    · exact h

/-- C7: starting from bodies whose trails satisfy the invariant (length
at most `trail_limit`, last point = current position when nonempty),
after any number of steps every body still in the collection satisfies
it: its trail has at most `trail_limit` (= 200) points and the last
point of a nonempty trail is the body's current position. -/
theorem trail_invariant (ps : List Planet) (n fresh : ℕ)
    (h : ∀ p ∈ ps, goodTrail p) :
    ∀ p ∈ stepN n ps fresh, goodTrail p := by
  induction n generalizing ps fresh with
  | zero => exact h
  | succ m ih =>
    unfold stepN
    exact ih _ _ (frameAux_good _ _ _ _ _ _ h)

/-- Witness for C7: one step on two concrete fresh bodies. -/
theorem trail_invariant_witness :
    (∀ p ∈ [wpO, wpP], goodTrail p) ∧ ∀ p ∈ stepN 1 [wpO, wpP] 50, goodTrail p := by
  have h : ∀ p ∈ [wpO, wpP], goodTrail p := by
    intro p hp
    simp only [List.mem_cons, List.mem_singleton, List.not_mem_nil, or_false] at hp
    rcases hp with rfl | rfl
    · exact ⟨by simp [wpO, trail_limit], Or.inl rfl⟩
    · exact ⟨by simp [wpP, trail_limit], Or.inl rfl⟩
  exact ⟨h, trail_invariant [wpO, wpP] 1 50 h⟩

/-- If the scan returns accumulated forces, no body it saw (other than
`self`) was within collision range. -/
lemma scanBodies_inl (self : Planet) : ∀ (l : List Planet) (fx fy : ℝ) (r : ℝ × ℝ),
    self.scanBodies l fx fy = Sum.inl r →
    ∀ p ∈ l, p.id ≠ self.id →
      ¬ distance self p ≤ self.physical_radius + p.physical_radius := by
  intro l
  induction l with
  | nil => intro fx fy r h p hp; exact absurd hp (List.not_mem_nil p)
  | cons q rest ih =>
    intro fx fy r h p hp hpid
    unfold Planet.scanBodies at h
    by_cases hid : q.id = self.id
    · rw [if_pos hid] at h
      rcases List.mem_cons.mp hp with rfl | hp2
      · exact absurd hid hpid
      · exact ih fx fy r h p hp2 hpid
    · rw [if_neg hid] at h
      by_cases hcol : distance self q ≤ self.physical_radius + q.physical_radius
      · rw [if_pos hcol] at h
        exact absurd h (by simp)
      · rw [if_neg hcol] at h
        rcases List.mem_cons.mp hp with rfl | hp2
        · exact hcol
        · exact ih _ _ r h p hp2 hpid

/-- If the scan returns a collision partner, that partner is a member of
the scanned list, is distinct from `self`, and is within collision range. -/
lemma scanBodies_inr (self q : Planet) : ∀ (l : List Planet) (fx fy : ℝ),
    self.scanBodies l fx fy = Sum.inr q →
    q ∈ l ∧ q.id ≠ self.id ∧
      distance self q ≤ self.physical_radius + q.physical_radius := by
  intro l
  induction l with
  | nil => intro fx fy h; exact absurd h (by simp [Planet.scanBodies])
  | cons a rest ih =>
    intro fx fy h
    unfold Planet.scanBodies at h
    by_cases hid : a.id = self.id
    · rw [if_pos hid] at h
      obtain ⟨h1, h2, h3⟩ := ih _ _ h
      exact ⟨List.mem_cons_of_mem a h1, h2, h3⟩
    · rw [if_neg hid] at h
      by_cases hcol : distance self a ≤ self.physical_radius + a.physical_radius
      · rw [if_pos hcol] at h
        obtain rfl : a = q := Sum.inr.inj h
        exact ⟨List.mem_cons_self _ _, hid, hcol⟩
      · rw [if_neg hcol] at h
        obtain ⟨h1, h2, h3⟩ := ih _ _ h
        exact ⟨List.mem_cons_of_mem a h1, h2, h3⟩

/-- C10: whenever `update_position`'s scan completes without detecting
a collision (the only case in which the accumulated attractions are
used), every pair it evaluated `attract` on was beyond the sum of the
(strictly positive) physical radii, hence at nonzero distance: the
degenerate `d == 0` zero-force branch of `attract` is never taken, and
`attract` returns the non-degenerate closed form. -/
theorem no_degenerate_attract (self : Planet) (ps : List Planet) (r : ℝ × ℝ)
    (hs : 0 < self.physical_radius) (hr : ∀ p ∈ ps, 0 < p.physical_radius)
    (hscan : self.scanBodies ps 0 0 = Sum.inl r) :
    ∀ p ∈ ps, p.id ≠ self.id →
      ¬ distance self p ≤ self.physical_radius + p.physical_radius ∧
      distance self p ≠ 0 ∧
      self.attract p
        = ((p.x - self.x) / distance self p * (G * self.mass * p.mass / distance self p ^ 2),
           (p.y - self.y) / distance self p * (G * self.mass * p.mass / distance self p ^ 2)) := by
  intro p hp hpid
  have hno := scanBodies_inl self ps 0 0 r hscan p hp hpid
  have hd : distance self p ≠ 0 := by
    intro h0
    apply hno
    rw [h0]
    exact le_of_lt (add_pos hs (hr p hp))
  exact ⟨hno, hd, attract_eq self p hd⟩

/-- Witness for C10 at a concrete two-body list with no overlap. -/
theorem no_degenerate_attract_witness :
    0 < wpO.physical_radius ∧ (∀ p ∈ [wpO, wpP], 0 < p.physical_radius) ∧
    wpO.scanBodies [wpO, wpP] 0 0
      = Sum.inl (0 + (wpO.attract wpP).1, 0 + (wpO.attract wpP).2) ∧
    (∀ p ∈ [wpO, wpP], p.id ≠ wpO.id →
      ¬ distance wpO p ≤ wpO.physical_radius + p.physical_radius ∧
      distance wpO p ≠ 0 ∧
      wpO.attract p
        = ((p.x - wpO.x) / distance wpO p * (G * wpO.mass * p.mass / distance wpO p ^ 2),
           (p.y - wpO.y) / distance wpO p * (G * wpO.mass * p.mass / distance wpO p ^ 2))) := by
  have hd : distance wpO wpP = 3 := by
    unfold distance
    rw [show wpP.x - wpO.x = (3:ℝ) from by norm_num [wpO, wpP],
        show wpP.y - wpO.y = (0:ℝ) from by norm_num [wpO, wpP],
        show (3:ℝ) ^ 2 + 0 ^ 2 = 3 ^ 2 from by norm_num]
    exact Real.sqrt_sq (by norm_num)
  have hr : ∀ p ∈ [wpO, wpP], 0 < p.physical_radius := by
    intro p hp
    simp only [List.mem_cons, List.mem_singleton, List.not_mem_nil, or_false] at hp
    rcases hp with rfl | rfl
    · norm_num [wpO]
    · norm_num [wpP]
  have hscan : wpO.scanBodies [wpO, wpP] 0 0
      = Sum.inl (0 + (wpO.attract wpP).1, 0 + (wpO.attract wpP).2) := by
    unfold Planet.scanBodies
    rw [if_pos rfl]
    unfold Planet.scanBodies
    rw [if_neg (show ¬wpP.id = wpO.id from by norm_num [wpO, wpP]),
        if_neg (show ¬distance wpO wpP ≤ wpO.physical_radius + wpP.physical_radius from by
          rw [hd]; norm_num [wpO, wpP])]
    rfl
  exact ⟨by norm_num [wpO], hr, hscan,
    no_degenerate_attract wpO [wpO, wpP] _ (by norm_num [wpO]) hr hscan⟩

/-- C4 (amended): an overlap detected by a body's scan is resolved right
there by exactly one merge: the scanning body and its first overlapping
partner are removed and their merger is appended. (The full post-step
no-overlap invariant fails; see the counterexample.) -/
theorem detected_overlap_merged (self q : Planet) (ps : List Planet) (newId : ℕ)
    (h : self.scanBodies ps 0 0 = Sum.inr q) :
    q ∈ ps ∧ q.id ≠ self.id ∧
      distance self q ≤ self.physical_radius + q.physical_radius ∧
      self.update_position ps newId
        = ((ps.eraseP (fun r => r.id == self.id)).eraseP (fun r => r.id == q.id))
          ++ [self.collide q newId] := by
  obtain ⟨h1, h2, h3⟩ := scanBodies_inr self q ps 0 0 h
  exact ⟨h1, h2, h3, update_position_inr self ps newId q h⟩

/-- Concrete body overlapping `wpO`, used in the C4 amended witness. -/
noncomputable def wpQ : Planet :=
  { id := 2, x := 1, y := 0, radius := 1, physical_radius := 1, color := 0,
    mass := 1, name := "Q", type_id := 3, orbit := [], x_vel := 0, y_vel := 0 }

/-- Witness for the amended C4 at a concrete overlapping pair. -/
theorem detected_overlap_merged_witness :
    wpO.scanBodies [wpO, wpQ] 0 0 = Sum.inr wpQ ∧
    (wpQ ∈ [wpO, wpQ] ∧ wpQ.id ≠ wpO.id ∧
      distance wpO wpQ ≤ wpO.physical_radius + wpQ.physical_radius ∧
      wpO.update_position [wpO, wpQ] 11
        = (([wpO, wpQ].eraseP (fun r => r.id == wpO.id)).eraseP (fun r => r.id == wpQ.id))
          ++ [wpO.collide wpQ 11]) := by
  have hd : distance wpO wpQ = 1 := by
    unfold distance
    rw [show wpQ.x - wpO.x = (1:ℝ) from by norm_num [wpO, wpQ],
        show wpQ.y - wpO.y = (0:ℝ) from by norm_num [wpO, wpQ],
        show (1:ℝ) ^ 2 + 0 ^ 2 = 1 from by norm_num]
    exact Real.sqrt_one
  have hscan : wpO.scanBodies [wpO, wpQ] 0 0 = Sum.inr wpQ := by
    unfold Planet.scanBodies
    rw [if_pos rfl]
    unfold Planet.scanBodies
    rw [if_neg (show ¬wpQ.id = wpO.id from by norm_num [wpO, wpQ]),
        if_pos (show distance wpO wpQ ≤ wpO.physical_radius + wpQ.physical_radius from by
          rw [hd]; norm_num [wpO, wpQ])]
  exact ⟨hscan, detected_overlap_merged wpO wpQ [wpO, wpQ] 11 hscan⟩

/-- One unfolding of the frame loop when the index is in range. -/
lemma frameAux_one (fuel : ℕ) (ps : List Planet) (i : ℕ) (paused : Bool)
    (dragging : Option ℕ) (fresh : ℕ) (h : i < ps.length) :
    frameAux (fuel + 1) ps i paused dragging fresh
      = frameAux fuel
          (if paused = false ∨ dragging = some (ps[i]).id
            then (ps[i]).update_position ps fresh else ps)
          (i + 1) paused dragging (fresh + 1) := by
  conv_lhs => unfold frameAux
  rw [dif_pos h]

/-- First body of the C4 counterexample: tiny mass, at rest at the origin. -/
noncomputable def cxA : Planet :=
  { id := 0, x := 0, y := 0, radius := 1, physical_radius := 1, color := 0,
    mass := 1 / 1000000, name := "A", type_id := 2, orbit := [], x_vel := 0, y_vel := 0 }

/-- Second body of the C4 counterexample: tiny mass at `(10, 0)`, moving
left fast enough to cover the whole gap in one timestep. -/
noncomputable def cxB : Planet :=
  { id := 1, x := 10, y := 0, radius := 1, physical_radius := 1, color := 0,
    mass := 1 / 1000000, name := "B", type_id := 2, orbit := [],
    x_vel := -(1 / 8640), y_vel := 0 }

/-- State of `cxA` after its own update (it drifts right a tiny amount). -/
noncomputable def cxA2 : Planet :=
  cxA.integrate (0 + (cxA.attract cxB).1) (0 + (cxA.attract cxB).2)

/-- State of `cxB` after its own update (it jumps left onto `cxA2`). -/
noncomputable def cxB2 : Planet :=
  cxB.integrate (0 + (cxB.attract cxA2).1) (0 + (cxB.attract cxA2).2)

/-- The force of `cxB` on `cxA` points right along the axis. -/
lemma cxA_attract_cxB :
    cxA.attract cxB = (G * cxA.mass * cxB.mass / (cxB.x - cxA.x) ^ 2, 0) :=
  attract_right cxA cxB rfl (by norm_num [cxA, cxB])

/-- After its update, `cxA2` has barely moved: its position is in [0, 1]. -/
lemma cxA2_x_bounds : 0 ≤ cxA2.x ∧ cxA2.x ≤ 1 := by
  constructor <;>
  · show _
    rw [show cxA2.x
        = cxA.x + (cxA.x_vel + (0 + (cxA.attract cxB).1) / cxA.mass * TIMESTEP) * TIMESTEP
        from rfl, cxA_attract_cxB]
    norm_num [cxA, cxB, G, TIMESTEP]

/-- `cxA2` stays on the axis. -/
lemma cxA2_y_eq : cxA2.y = 0 := by
  rw [show cxA2.y
      = cxA.y + (cxA.y_vel + (0 + (cxA.attract cxB).2) / cxA.mass * TIMESTEP) * TIMESTEP
      from rfl, cxA_attract_cxB]
  norm_num [cxA]

/-- First iteration of the step: `cxA` finds no overlap (`cxB` is 10 m
away, radii sum to 2) and integrates in place. -/
lemma c4_step1 (newId : ℕ) : cxA.update_position [cxA, cxB] newId = [cxA2, cxB] := by
  have hd : distance cxA cxB = 10 := by
    unfold distance
    rw [show cxB.x - cxA.x = (10:ℝ) from by norm_num [cxA, cxB],
        show cxB.y - cxA.y = (0:ℝ) from by norm_num [cxA, cxB],
        show (10:ℝ) ^ 2 + 0 ^ 2 = 10 ^ 2 from by norm_num]
    exact Real.sqrt_sq (by norm_num)
  have hscan : cxA.scanBodies [cxA, cxB] 0 0
      = Sum.inl (0 + (cxA.attract cxB).1, 0 + (cxA.attract cxB).2) := by
    unfold Planet.scanBodies
    rw [if_pos rfl]
    unfold Planet.scanBodies
    rw [if_neg (show ¬cxB.id = cxA.id from by norm_num [cxA, cxB]),
        if_neg (show ¬distance cxA cxB ≤ cxA.physical_radius + cxB.physical_radius from by
          rw [hd]; norm_num [cxA, cxB])]
    rfl
  rw [update_position_inl _ _ _ _ _ hscan]
  simp only [List.map_cons, List.map_nil]
  rw [if_pos trivial, if_neg (show ¬cxB.id = cxA.id from by norm_num [cxA, cxB])]
  rfl

/-- The force of `cxA2` on `cxB` points left along the axis. -/
lemma cxB_attract_cxA2 :
    cxB.attract cxA2 = (-(G * cxB.mass * cxA2.mass / (cxA2.x - cxB.x) ^ 2), 0) := by
  refine attract_left cxB cxA2 ?_ ?_
  · rw [cxA2_y_eq]
    norm_num [cxB]
  · obtain ⟨h0, h1⟩ := cxA2_x_bounds
    show cxA2.x < cxB.x
    rw [show cxB.x = (10:ℝ) from rfl]
    linarith

/-- Second iteration of the step: `cxB` sees `cxA2` far outside collision
range (about 10 m away) and integrates in place. -/
lemma c4_step2 (newId : ℕ) : cxB.update_position [cxA2, cxB] newId = [cxA2, cxB2] := by
  obtain ⟨h0, h1⟩ := cxA2_x_bounds
  have hd : distance cxB cxA2 = 10 - cxA2.x := by
    unfold distance
    rw [cxA2_y_eq, show cxB.y = (0:ℝ) from rfl, show cxB.x = (10:ℝ) from rfl]
    rw [show ((0:ℝ) - 0) ^ 2 = 0 from by norm_num, add_zero, Real.sqrt_sq_eq_abs,
        abs_of_nonpos (by linarith), neg_sub]
  have hidA2 : cxA2.id = 0 := rfl
  have hscan : cxB.scanBodies [cxA2, cxB] 0 0
      = Sum.inl (0 + (cxB.attract cxA2).1, 0 + (cxB.attract cxA2).2) := by
    unfold Planet.scanBodies
    rw [if_neg (show ¬cxA2.id = cxB.id from by
          rw [hidA2, show cxB.id = 1 from rfl]; norm_num),
        if_neg (show ¬distance cxB cxA2 ≤ cxB.physical_radius + cxA2.physical_radius from by
          rw [hd, show cxB.physical_radius = (1:ℝ) from rfl,
            show cxA2.physical_radius = (1:ℝ) from rfl]
          linarith)]
    unfold Planet.scanBodies
    rw [if_pos rfl]
    rfl
  rw [update_position_inl _ _ _ _ _ hscan]
  simp only [List.map_cons, List.map_nil]
  rw [if_neg (show ¬cxA2.id = cxB.id from by
        rw [hidA2, show cxB.id = 1 from rfl]; norm_num),
      if_pos trivial]
  rfl

/-- Full evaluation of one step on the counterexample pair: both bodies
pass their collision checks (gap about 10 m ≫ 2 m) and integrate. -/
lemma c4_step_eval : step [cxA, cxB] 99 = [cxA2, cxB2] := by
  show frameAux (1 + 1) [cxA, cxB] 0 false none 99 = _
  rw [frameAux_one 1 [cxA, cxB] 0 false none 99 (by norm_num)]
  rw [if_pos (Or.inl rfl)]
  simp only [List.getElem_cons_zero]
  rw [c4_step1 99]
  show frameAux (0 + 1) [cxA2, cxB] (0 + 1) false none (99 + 1) = _
  rw [frameAux_one 0 [cxA2, cxB] (0 + 1) false none (99 + 1) (by norm_num)]
  rw [if_pos (Or.inl rfl)]
  simp only [List.getElem_cons_succ, List.getElem_cons_zero]
  rw [c4_step2 (99 + 1)]
  rfl

/-- After its update, `cxB2` has overshot onto the left body: its
position is in [-1, 0]. -/
lemma cxB2_x_bounds : -1 ≤ cxB2.x ∧ cxB2.x ≤ 0 := by
  obtain ⟨h0, h1⟩ := cxA2_x_bounds
  have hne : cxA2.x - 10 ≠ 0 := by intro h; linarith
  have hsq : (81 : ℝ) ≤ (cxA2.x - 10) ^ 2 := by nlinarith
  have hfst : (cxB.attract cxA2).1
      = -(G * cxB.mass * cxA2.mass / (cxA2.x - cxB.x) ^ 2) := by
    rw [cxB_attract_cxA2]
  have hE : cxB2.x = -(G * 7464960000 / (1000000 * (cxA2.x - 10) ^ 2)) := by
    rw [show cxB2.x
        = cxB.x + (cxB.x_vel + (0 + (cxB.attract cxA2).1) / cxB.mass * TIMESTEP) * TIMESTEP
        from rfl, hfst,
        show cxA2.mass = (1 / 1000000 : ℝ) from rfl,
        show cxB.mass = (1 / 1000000 : ℝ) from rfl,
        show cxB.x = (10 : ℝ) from rfl,
        show cxB.x_vel = (-(1 / 8640) : ℝ) from rfl,
        TIMESTEP]
    field_simp
    ring
  constructor
  · rw [hE]
    have hd81 : (1000000 : ℝ) * 81 ≤ 1000000 * (cxA2.x - 10) ^ 2 := by nlinarith
    have hle : G * 7464960000 / (1000000 * (cxA2.x - 10) ^ 2)
        ≤ G * 7464960000 / (1000000 * 81) :=
      div_le_div_of_nonneg_left (by norm_num [G]) (by norm_num) hd81
    have hnum : G * 7464960000 / (1000000 * 81) ≤ 1 := by norm_num [G]
    linarith
  · rw [hE]
    have hpos : 0 ≤ G * 7464960000 / (1000000 * (cxA2.x - 10) ^ 2) :=
      div_nonneg (by norm_num [G]) (by positivity)
    linarith

/-- `cxB2` stays on the axis. -/
lemma cxB2_y_eq : cxB2.y = 0 := by
  have hsnd : (cxB.attract cxA2).2 = 0 := by rw [cxB_attract_cxA2]
  rw [show cxB2.y
      = cxB.y + (cxB.y_vel + (0 + (cxB.attract cxA2).2) / cxB.mass * TIMESTEP) * TIMESTEP
      from rfl, hsnd]
  norm_num [cxB]

/-- Counterexample to C4: after one full step on two valid bodies (both
with positive masses and physical radii, starting 10 m apart with radii
summing to 2 m), the two bodies remaining in the collection OVERLAP:
the trailing body moved into the leading body during integration, after
both pairwise collision checks had already been evaluated. -/
theorem overlap_after_step_counterexample :
    ∃ p q, step [cxA, cxB] 99 = [p, q] ∧ p.id ≠ q.id ∧
      0 < p.mass ∧ 0 < q.mass ∧ 0 < p.physical_radius ∧ 0 < q.physical_radius ∧
      distance p q ≤ p.physical_radius + q.physical_radius := by
  obtain ⟨ha0, ha1⟩ := cxA2_x_bounds
  obtain ⟨hb0, hb1⟩ := cxB2_x_bounds
  refine ⟨cxA2, cxB2, c4_step_eval, ?_, ?_, ?_, ?_, ?_, ?_⟩
  · rw [show cxA2.id = 0 from rfl, show cxB2.id = 1 from rfl]
    norm_num
  · show (0 : ℝ) < cxA2.mass
    rw [show cxA2.mass = (1 / 1000000 : ℝ) from rfl]
    norm_num
  · show (0 : ℝ) < cxB2.mass
    rw [show cxB2.mass = (1 / 1000000 : ℝ) from rfl]
    norm_num
  · show (0 : ℝ) < cxA2.physical_radius
    rw [show cxA2.physical_radius = (1 : ℝ) from rfl]
    norm_num
  · show (0 : ℝ) < cxB2.physical_radius
    rw [show cxB2.physical_radius = (1 : ℝ) from rfl]
    norm_num
  · have hd : distance cxA2 cxB2 = |cxB2.x - cxA2.x| := by
      unfold distance
      rw [cxA2_y_eq, cxB2_y_eq, show ((0 : ℝ) - 0) ^ 2 = 0 from by norm_num, add_zero,
        Real.sqrt_sq_eq_abs]
    rw [hd, show cxA2.physical_radius = (1 : ℝ) from rfl,
      show cxB2.physical_radius = (1 : ℝ) from rfl, abs_le]
    constructor <;> linarith

/-- In a paused frame with a dragged identity, a suffix of the loop in
which no body carries the dragged identity performs no update at all. -/
lemma frameAux_some_frozen (d : ℕ) : ∀ (fuel : ℕ) (ps : List Planet) (i fresh : ℕ),
    (∀ k, (hk : k < ps.length) → i ≤ k → (ps[k]).id ≠ d) →
    frameAux fuel ps i true (some d) fresh = ps := by
  intro fuel
  induction fuel with
  | zero => intro ps i fresh _; rfl
  | succ n ih =>
    intro ps i fresh h
    unfold frameAux
    split
    · next hlen =>
      have hg : ¬(true = false ∨ some d = some ((ps[i]).id)) := by
        rintro (hc | hc)
        · exact absurd hc (by simp)
        · exact h i hlen le_rfl (Option.some.inj hc).symm
      rw [if_neg hg]
      exact ih ps (i + 1) (fresh + 1) (fun k hk hik => h k hk (by omega))
    · rfl

/-- In a paused frame whose dragged identity occurs exactly once, at
index `j`, and whose dragged body's scan detects no collision, the pass
updates exactly the dragged body: it is integrated with the forces
accumulated over the whole collection, and every other body is returned
unchanged. -/
lemma frameAux_drag (d : ℕ) (fx fy : ℝ) : ∀ (fuel : ℕ) (ps : List Planet)
    (i fresh j : ℕ) (hj : j < ps.length), i ≤ j → ps.length ≤ i + fuel →
    (ps[j]).id = d →
    (∀ k, (hk : k < ps.length) → k ≠ j → (ps[k]).id ≠ d) →
    (ps[j]).scanBodies ps 0 0 = Sum.inl (fx, fy) →
    frameAux fuel ps i true (some d) fresh
      = ps.map (fun q => if q.id = d then (ps[j]).integrate fx fy else q) := by
  intro fuel
  induction fuel with
  | zero => intro ps i fresh j hj hij hfuel hdj huniq hscan; omega
  | succ n ih =>
    intro ps i fresh j hj hij hfuel hdj huniq hscan
    have hilen : i < ps.length := lt_of_le_of_lt hij hj
    unfold frameAux
    rw [dif_pos hilen]
    by_cases hije : i = j
    · subst hije
      rw [if_pos (Or.inr (by rw [hdj]))]
      rw [update_position_inl _ _ _ _ _ hscan]
      simp only [hdj]
      apply frameAux_some_frozen
      intro k hk hik
      have hk2 : k < ps.length := by
        simpa using hk
      rw [List.getElem_map]
      have hkni : k ≠ i := by omega
      have hkd : (ps[k]).id ≠ d := huniq k hk2 hkni
      rw [if_neg hkd]
      exact hkd
    · have hni : (ps[i]).id ≠ d := huniq i hilen hije
      have hg : ¬(true = false ∨ some d = some ((ps[i]).id)) := by
        rintro (hc | hc)
        · exact absurd hc (by simp)
        · exact hni (Option.some.inj hc).symm
      rw [if_neg hg]
      exact ih ps (i + 1) (fresh + 1) j hj (by omega) (by omega) hdj huniq hscan

/-- C5 (amended): in a frame whose pause flag is set, the dragged body is
the only one passed to `update_position`, the reverse of being excluded:
with nothing dragged the whole collection is returned unchanged; with a
dragged identity carried by no body, likewise; and with the dragged
identity carried by exactly the body at index `j` whose scan detects no
collision, the frame integrates that body (force accumulation over the
whole collection, velocity and position integration, trail append) while
returning every other body exactly unchanged. -/
theorem paused_frame_spec (ps : List Planet) (fresh : ℕ) (d j : ℕ) (fx fy : ℝ)
    (hj : j < ps.length) (hdj : (ps[j]).id = d)
    (huniq : ∀ k, (hk : k < ps.length) → k ≠ j → (ps[k]).id ≠ d)
    (hscan : (ps[j]).scanBodies ps 0 0 = Sum.inl (fx, fy)) :
    frame ps true none fresh = ps ∧
    (∀ qs : List Planet, (∀ p ∈ qs, p.id ≠ d) → frame qs true (some d) fresh = qs) ∧
    frame ps true (some d) fresh
      = ps.map (fun q => if q.id = d then (ps[j]).integrate fx fy else q) := by
  refine ⟨frameAux_true_none ps.length ps 0 fresh, ?_, ?_⟩
  · intro qs hqs
    exact frameAux_some_frozen d qs.length qs 0 fresh
      (fun k hk _ => hqs _ (List.getElem_mem hk))
  · exact frameAux_drag d fx fy ps.length ps 0 fresh j hj (Nat.zero_le j)
      (by omega) hdj huniq hscan

/-- Witness for the amended C5: a two-body collection with the first
body dragged; the dragged body is integrated against the other body's
attraction while the other body is unchanged. -/
theorem paused_frame_spec_witness :
    wpD.id = 0 ∧
    (∀ k, (hk : k < [wpD, wpP].length) → k ≠ 0 → ([wpD, wpP][k]).id ≠ 0) ∧
    wpD.scanBodies [wpD, wpP] 0 0
      = Sum.inl (0 + (wpD.attract wpP).1, 0 + (wpD.attract wpP).2) ∧
    (frame [wpD, wpP] true none 9 = [wpD, wpP] ∧
     (∀ qs : List Planet, (∀ p ∈ qs, p.id ≠ 0) → frame qs true (some 0) 9 = qs) ∧
     frame [wpD, wpP] true (some 0) 9
       = [wpD, wpP].map (fun q => if q.id = 0
           then wpD.integrate (0 + (wpD.attract wpP).1) (0 + (wpD.attract wpP).2)
           else q)) := by
  have hd3 : distance wpD wpP = 3 := by
    unfold distance
    rw [show wpP.x - wpD.x = (3:ℝ) from by norm_num [wpD, wpP],
        show wpP.y - wpD.y = (0:ℝ) from by norm_num [wpD, wpP],
        show (3:ℝ) ^ 2 + 0 ^ 2 = 3 ^ 2 from by norm_num]
    exact Real.sqrt_sq (by norm_num)
  have huniq : ∀ k, (hk : k < [wpD, wpP].length) → k ≠ 0 → ([wpD, wpP][k]).id ≠ 0 := by
    intro k hk hk0
    have hk2 : k < 2 := by simpa using hk
    have hk1 : k = 1 := by omega
    subst hk1
    show wpP.id ≠ 0
    norm_num [wpP]
  have hscan : wpD.scanBodies [wpD, wpP] 0 0
      = Sum.inl (0 + (wpD.attract wpP).1, 0 + (wpD.attract wpP).2) := by
    unfold Planet.scanBodies
    rw [if_pos rfl]
    unfold Planet.scanBodies
    rw [if_neg (show ¬wpP.id = wpD.id from by norm_num [wpD, wpP]),
        if_neg (show ¬distance wpD wpP ≤ wpD.physical_radius + wpP.physical_radius from by
          rw [hd3]; norm_num [wpD, wpP])]
    rfl
  exact ⟨rfl, huniq, hscan,
    paused_frame_spec [wpD, wpP] 9 0 0
      (0 + (wpD.attract wpP).1) (0 + (wpD.attract wpP).2)
      (by norm_num) rfl huniq hscan⟩
